import Mathlib

/-!
# A shallow embedding of the `lvfs` core, with proofs about its spec

Each section embeds one part of the repository's Python source
(`src/lvfs/...`) as executable Lean definitions, followed by theorems
that settle the corresponding natural-language spec claims.
-/

set_option autoImplicit false

namespace LVFS

/-- The concrete Python exception classes raised by the code paths modelled
    here (`credentials.py`, `url.py`, `hdfsclioverssh.py`). -/
inductive PyErr where
  | valueError
  | attributeError
  | typeError
  | fileNotFoundError
  | fileExistsError
  | isADirectoryError
  | ioError
  deriving DecidableEq, Repr

/-- Python `str.lower`, as used by `Credentials.register`/`match`
    (`credentials.py:119-120,149-150`). For the ASCII hosts and buckets the
    code normalises, this is `String.toLower`. -/
def pyLower (s : String) : String := ⟨s.data.map Char.toLower⟩

namespace Credentials

/-- `Realm = namedtuple("Realm", ["classname", "host", "bucket", "path"])`
    (`credentials.py:9`). `None` fields become `Option.none`. -/
structure Realm where
  classname : String
  host : Option String
  bucket : Option String
  path : Option String
  deriving DecidableEq, Repr

/-- The credential store `Credentials.__creds`: an ordered list of
    `(Realm, content)` pairs. The payload type is a parameter because the
    Python `content` is `Any`. -/
abbrev Creds (α : Type) := List (Realm × α)

/-- `Credentials.register` (`credentials.py:100-125`): lowercases `host` and
    `bucket`, keeps `classname` and `path` as given, and appends the new
    `(Realm, content)` pair at the end of the store. -/
def register {α : Type} (creds : Creds α) (content : α) (classname : String)
    (host bucket path : Option String) : Creds α :=
  creds ++ [(⟨classname, host.map pyLower, bucket.map pyLower, path⟩, content)]

/-- The scan loop of `Credentials.match` (`credentials.py:152-161`): walk the
    store in registration order, `continue` past realms whose guards fail,
    and return the `content` of the first realm that passes every guard.
    When a realm has a `path` but the query does not, the Python expression
    `query.path.startswith(realm.path)` raises `AttributeError`
    (`None` has no `startswith`), which we model as an `Except.error`. -/
def matchScan {α : Type} : Creds α → Realm → Except PyErr (Option α)
  | [], _ => .ok none
  | (realm, content) :: rest, query =>
    if realm.classname ≠ query.classname then matchScan rest query
    else if ¬ (realm.host = none ∨ realm.host = query.host) then matchScan rest query
    else if ¬ (realm.bucket = none ∨ realm.bucket = query.bucket) then matchScan rest query
    else
      match realm.path with
      | none => .ok (some content)
      | some rp =>
        match query.path with
        | none => .error .attributeError
        | some qp => if rp.isPrefixOf qp then .ok (some content) else matchScan rest query

/-- `Credentials.match` (`credentials.py:128-166`): lowercase the query's
    host and bucket, scan the store, and on no match raise
    `ValueError` when `fail` is true, else return the `None` sentinel.
    (The lazy `init_register()` config-file load at `credentials.py:147-148`
    reads external files and is outside this model; the store passed in is
    the one produced by the `register` calls.) -/
def matchCred {α : Type} (creds : Creds α) (classname : String)
    (host bucket path : Option String) (fail : Bool) : Except PyErr (Option α) :=
  let query : Realm := ⟨classname, host.map pyLower, bucket.map pyLower, path⟩
  match matchScan creds query with
  | .error e => .error e
  | .ok (some content) => .ok (some content)
  | .ok none => if fail then .error .valueError else .ok none

/-- One `Credentials.register` call, with its original (pre-lowercasing)
    arguments. -/
structure RegCall (α : Type) where
  content : α
  classname : String
  host : Option String
  bucket : Option String
  path : Option String

/-- The store produced by a sequence of `register` calls starting from an
    empty store. -/
def registerAll {α : Type} (calls : List (RegCall α)) : Creds α :=
  calls.foldl
    (fun creds c => register creds c.content c.classname c.host c.bucket c.path) []

/-- Modelled from the spec's words: the realm's host (or bucket) is unset,
    or it equals the query's case-insensitively. -/
def hostMatches (rh qh : Option String) : Bool :=
  match rh, qh with
  | none, _ => true
  | some a, some b => pyLower a == pyLower b
  | some _, none => false

/-- Modelled from the spec's words: the realm's path is unset, or it is a
    literal prefix of the query path (a realm that restricts path does not
    match a query with no path). -/
def pathMatches (rp qp : Option String) : Bool :=
  match rp, qp with
  | none, _ => true
  | some a, some b => a.isPrefixOf b
  | some _, none => false

/-- Modelled from the spec's words (for comparison with `matchScan`):
    a registered realm matches a query when the classname is equal exactly,
    the realm's host is unset or equals the query host case-insensitively,
    likewise for bucket, and the realm's path is unset or is a literal
    prefix of the query path. -/
def specMatches {α : Type} (c : RegCall α) (classname : String)
    (host bucket path : Option String) : Bool :=
  c.classname == classname
    && hostMatches c.host host
    && hostMatches c.bucket bucket
    && pathMatches c.path path

/-- Modelled from the spec's words: the payload of the first registered
    realm, in registration order, that matches the query. -/
def specFirstMatch {α : Type} (calls : List (RegCall α)) (classname : String)
    (host bucket path : Option String) : Option α :=
  (calls.find? (fun c => specMatches c classname host bucket path)).map RegCall.content

/-- The realm stored by `register` for one call. -/
def toCred {α : Type} (c : RegCall α) : Realm × α :=
  (⟨c.classname, c.host.map pyLower, c.bucket.map pyLower, c.path⟩, c.content)

theorem registerAll_eq_map_aux {α : Type} (calls : List (RegCall α)) (acc : Creds α) :
    calls.foldl
      (fun creds c => register creds c.content c.classname c.host c.bucket c.path) acc
      = acc ++ calls.map toCred := by
  induction calls generalizing acc with
  | nil => simp
  | cons c rest ih =>
    rw [List.foldl_cons, ih]
    simp [register, toCred]

theorem registerAll_eq_map {α : Type} (calls : List (RegCall α)) :
    registerAll calls = calls.map toCred := by
  simpa using registerAll_eq_map_aux calls []

theorem hostMatches_true_iff (rh qh : Option String) :
    hostMatches rh qh = true
      ↔ (rh.map pyLower = none ∨ rh.map pyLower = qh.map pyLower) := by
  cases rh <;> cases qh <;> simp [hostMatches, Option.map]

/-- The scan of `Credentials.match` computes exactly the spec's first match,
    provided the query has a path whenever some registered realm restricts
    path (otherwise `query.path.startswith` can raise, see the C1
    counterexample). -/
theorem matchScan_eq_spec {α : Type} (calls : List (RegCall α)) (classname : String)
    (host bucket path : Option String)
    (hp : path ≠ none ∨ ∀ c ∈ calls, c.path = none) :
    matchScan (calls.map toCred)
        ⟨classname, host.map pyLower, bucket.map pyLower, path⟩
      = .ok (specFirstMatch calls classname host bucket path) := by
  induction calls with
  | nil => simp [matchScan, specFirstMatch]
  | cons c rest ih =>
    have hrest : path ≠ none ∨ ∀ c' ∈ rest, c'.path = none := by
      rcases hp with h | h
      · exact Or.inl h
      · exact Or.inr fun c' hc' => h c' (List.mem_cons_of_mem _ hc')
    have ih' := ih hrest
    simp only [specFirstMatch] at ih'
    simp only [List.map_cons, specFirstMatch]
    cases hP : specMatches c classname host bucket path with
    | true =>
      rw [List.find?_cons_of_pos (p := fun c => specMatches c classname host bucket path)
        rest hP]
      have hparts := hP
      simp only [specMatches, Bool.and_eq_true, beq_iff_eq] at hparts
      obtain ⟨⟨⟨hc, hh⟩, hb⟩, hpp⟩ := hparts
      simp only [matchScan, toCred]
      rw [if_neg (not_not_intro hc),
        if_neg (not_not_intro ((hostMatches_true_iff _ _).mp hh)),
        if_neg (not_not_intro ((hostMatches_true_iff _ _).mp hb))]
      cases hcp : c.path with
      | none => rfl
      | some rp =>
        rw [hcp] at hpp
        cases hqp : path with
        | none =>
          exfalso
          rw [hqp] at hpp
          simp [pathMatches] at hpp
        | some qp =>
          rw [hqp] at hpp
          simp only [pathMatches] at hpp
          simp [hpp]
    | false =>
      rw [List.find?_cons_of_neg (p := fun c => specMatches c classname host bucket path)
        rest (by simp [hP])]
      simp only [matchScan, toCred]
      by_cases hc : c.classname = classname
      · by_cases hh : hostMatches c.host host = true
        · by_cases hb : hostMatches c.bucket bucket = true
          · have hpp : pathMatches c.path path = false := by
              cases hpm : pathMatches c.path path with
              | false => rfl
              | true =>
                exfalso
                have htr : specMatches c classname host bucket path = true := by
                  simp [specMatches, hc, hh, hb, hpm]
                rw [htr] at hP
                cases hP
            rw [if_neg (not_not_intro hc),
              if_neg (not_not_intro ((hostMatches_true_iff _ _).mp hh)),
              if_neg (not_not_intro ((hostMatches_true_iff _ _).mp hb))]
            cases hcp : c.path with
            | none =>
              exfalso
              rw [hcp] at hpp
              simp [pathMatches] at hpp
            | some rp =>
              rw [hcp] at hpp
              cases hqp : path with
              | none =>
                exfalso
                rcases hp with h | h
                · exact h hqp
                · have hnone := h c (List.mem_cons_self c rest)
                  rw [hcp] at hnone
                  cases hnone
              | some qp =>
                rw [hqp] at hpp
                simp only [pathMatches] at hpp
                rw [hqp] at ih'
                simpa [hpp] using ih'
          · rw [if_neg (not_not_intro hc),
              if_neg (not_not_intro ((hostMatches_true_iff _ _).mp hh)),
              if_pos (fun hor => hb ((hostMatches_true_iff _ _).mpr hor))]
            exact ih'
        · rw [if_neg (not_not_intro hc),
            if_pos (fun hor => hh ((hostMatches_true_iff _ _).mpr hor))]
          exact ih'
      · rw [if_pos hc]
        exact ih'

/-- Modelled from the spec: the spec's error taxonomy names a `NotFound`
    kind, which the repository realises as Python's `FileNotFoundError`
    (`read_all`/`stat`/`delete_one` "fail NotFound"; `hdfsclioverssh.py:116`
    classifies "No such file or directory" as `FileNotFoundError`). Used to
    compare the error class `Credentials.match` raises against the spec's
    "NotFound-class error". -/
def isNotFoundClass : PyErr → Bool
  | .fileNotFoundError => true
  | _ => false

end Credentials

open Credentials in
/-- C1 (amended): for every sequence of `Credentials.register` calls and
    every query — provided the query supplies a path, or no registered realm
    restricts path — `Credentials.match` returns the payload of the first
    realm in registration order whose classname equals the query's exactly,
    whose host is unset or equals the query host case-insensitively, whose
    bucket is unset or equals the query bucket case-insensitively, and whose
    path is unset or is a literal prefix of the query path. -/
theorem credentials_match_first_registered {α : Type} (calls : List (RegCall α))
    (classname : String) (host bucket path : Option String) (fail : Bool) (payload : α)
    (hp : path ≠ none ∨ ∀ c ∈ calls, c.path = none)
    (hm : specFirstMatch calls classname host bucket path = some payload) :
    matchCred (registerAll calls) classname host bucket path fail
      = .ok (some payload) := by
  rw [matchCred, registerAll_eq_map, matchScan_eq_spec calls classname host bucket path hp,
    hm]

open Credentials in
/-- C1 witness: the claim's own scenario. Register a generic realm
    `(classname "X", host unset, payload 1)` and then a more specific realm
    `(classname "X", host "h1", payload 2)`; `match("X", host="h1")` returns
    the first-registered payload `1`, not `2`. -/
theorem credentials_match_first_registered_witness :
    matchCred (registerAll
        [⟨(1 : Nat), "X", none, none, none⟩, ⟨2, "X", some "h1", none, none⟩])
      "X" (some "h1") none none true = .ok (some 1) :=
  credentials_match_first_registered
    [⟨(1 : Nat), "X", none, none, none⟩, ⟨2, "X", some "h1", none, none⟩]
    "X" (some "h1") none none true 1 (Or.inr (by decide)) (by decide)

open Credentials in
/-- C1 counterexample: register a realm `(classname "X", path "/p",
    payload 2)` and then an unrestricted realm `(classname "X", payload 1)`.
    For the query `match("X")` with no path, the first realm's path is not a
    literal prefix of the (absent) query path, so the claim says the scan
    skips it and returns payload 1; the code instead evaluates
    `None.startswith("/p")` and raises `AttributeError`
    (`credentials.py:159`). -/
theorem credentials_match_counterexample :
    specFirstMatch
        [⟨(2 : Nat), "X", none, none, some "/p"⟩, ⟨1, "X", none, none, none⟩]
        "X" none none none = some 1
      ∧ matchCred (registerAll
          [⟨(2 : Nat), "X", none, none, some "/p"⟩, ⟨1, "X", none, none, none⟩])
          "X" none none none true = .error .attributeError := by
  constructor
  · decide
  · rfl

open Credentials in
/-- C7 (amended): for every query on which the scan completes with no
    matching realm, `Credentials.match` raises `ValueError` — not a
    NotFound-class error — when `fail` is true, and returns the `None`
    sentinel rather than raising when `fail` is false. -/
theorem credentials_match_no_match {α : Type} (creds : Creds α) (classname : String)
    (host bucket path : Option String)
    (h : matchScan creds ⟨classname, host.map pyLower, bucket.map pyLower, path⟩
      = .ok none) :
    matchCred creds classname host bucket path true = .error .valueError
      ∧ matchCred creds classname host bucket path false = .ok none := by
  rw [matchCred, matchCred, h]
  exact ⟨rfl, rfl⟩

open Credentials in
/-- C7 witness: with an empty store, `match("X", fail=True)` raises
    `ValueError` and `match("X", fail=False)` returns the `None` sentinel. -/
theorem credentials_match_no_match_witness :
    matchCred ([] : Creds Nat) "X" none none none true = .error .valueError
      ∧ matchCred ([] : Creds Nat) "X" none none none false = .ok none :=
  credentials_match_no_match ([] : Creds Nat) "X" none none none rfl

open Credentials in
/-- C7 counterexample: the error `Credentials.match` raises when nothing
    matches and `fail` is true is `ValueError` (`credentials.py:164`), which
    is not in the NotFound class of errors that the spec's taxonomy maps to
    `FileNotFoundError` elsewhere in the program. -/
theorem credentials_match_no_match_counterexample :
    matchCred ([] : Creds Nat) "X" none none none true = .error .valueError
      ∧ isNotFoundClass .valueError = false :=
  ⟨rfl, rfl⟩

/-!
## `Stat` (`src/lvfs/stat.py`)

`Stat.__init__` normalises the `kind` string and backfills missing
timestamps. Numeric timestamps are converted with
`datetime.datetime.fromtimestamp`, which we model as the identity on an
integer timestamp type (the backfill logic is unaffected by the
representation); the resulting datetimes are always truthy, so Python's
`x or y` chains behave as "first non-None", i.e. `Option.or`.
-/

/-- A `datetime` value in the model: an epoch timestamp. -/
abbrev PyTime := Int

/-- `Stat` fields relevant to the claims (`stat.py:14`). -/
structure Stat where
  kind : Option String
  size : Option Int
  atime : Option PyTime
  mtime : Option PyTime
  ctime : Option PyTime
  birthtime : Option PyTime
  deriving DecidableEq, Repr

/-- `kind = kind and kind.lower()` followed by
    `self.kind = kind if kind in ["directory", "file", "symlink", "device"] else None`
    (`stat.py:28-29`). An empty string is falsy in Python, so it skips the
    `.lower()` call, but it is also not in the allowed list, so the stored
    value is `None` either way. -/
def Stat.normKind (kind : Option String) : Option String :=
  match kind with
  | none => none
  | some s =>
    if pyLower s = "directory" ∨ pyLower s = "file" ∨ pyLower s = "symlink"
        ∨ pyLower s = "device"
    then some (pyLower s) else none

/-- `Stat.__init__` (`stat.py:16-39`): normalise the kind, then backfill
    each timestamp with the `or`-chains of `stat.py:35-38`. -/
def Stat.init (kind : Option String) (size : Option Int)
    (atime mtime ctime birthtime : Option PyTime) : Stat :=
  { kind := Stat.normKind kind
    size := size
    atime := atime.or (mtime.or (ctime.or birthtime))
    mtime := mtime.or (ctime.or (birthtime.or atime))
    ctime := ctime.or (birthtime.or (mtime.or atime))
    birthtime := birthtime.or (ctime.or (mtime.or atime)) }

/-- C8: each missing timestamp is backfilled from the others in the fixed
    priority order of `stat.py:35-38` (access falls back to modify, then
    change, then birth, and symmetrically for the other fields, each keeping
    its own supplied value first); consequently, if at least one of the four
    timestamps was supplied, none of the four stored timestamps is null. -/
theorem stat_backfills_timestamps (kind : Option String) (size : Option Int)
    (atime mtime ctime birthtime : Option PyTime)
    (h : atime ≠ none ∨ mtime ≠ none ∨ ctime ≠ none ∨ birthtime ≠ none) :
    (∀ t, atime = some t → (Stat.init kind size atime mtime ctime birthtime).atime = some t)
      ∧ (atime = none → ∀ t, mtime = some t →
          (Stat.init kind size atime mtime ctime birthtime).atime = some t)
      ∧ (atime = none → mtime = none → ∀ t, ctime = some t →
          (Stat.init kind size atime mtime ctime birthtime).atime = some t)
      ∧ (atime = none → mtime = none → ctime = none →
          (Stat.init kind size atime mtime ctime birthtime).atime = birthtime)
      ∧ (∀ t, mtime = some t → (Stat.init kind size atime mtime ctime birthtime).mtime = some t)
      ∧ (∀ t, ctime = some t → (Stat.init kind size atime mtime ctime birthtime).ctime = some t)
      ∧ (∀ t, birthtime = some t →
          (Stat.init kind size atime mtime ctime birthtime).birthtime = some t)
      ∧ (Stat.init kind size atime mtime ctime birthtime).atime ≠ none
      ∧ (Stat.init kind size atime mtime ctime birthtime).mtime ≠ none
      ∧ (Stat.init kind size atime mtime ctime birthtime).ctime ≠ none
      ∧ (Stat.init kind size atime mtime ctime birthtime).birthtime ≠ none := by
  cases atime <;> cases mtime <;> cases ctime <;> cases birthtime <;>
    simp_all [Stat.init, Option.or]

/-- C8 witness: supplying only `ctime = 7` backfills the other three
    timestamps with `7`, so none of the stored timestamps is null. -/
theorem stat_backfills_timestamps_witness :
    (Stat.init none none none none (some 7) none).atime ≠ none
      ∧ (Stat.init none none none none (some 7) none).mtime ≠ none
      ∧ (Stat.init none none none none (some 7) none).ctime ≠ none
      ∧ (Stat.init none none none none (some 7) none).birthtime ≠ none := by
  have h := stat_backfills_timestamps none none none none (some 7) none
    (Or.inr (Or.inr (Or.inl (by decide))))
  exact ⟨h.2.2.2.2.2.2.2.1, h.2.2.2.2.2.2.2.2.1, h.2.2.2.2.2.2.2.2.2.1,
    h.2.2.2.2.2.2.2.2.2.2⟩

/-- C10: the stored `kind` is either `None` or exactly one of "directory",
    "file", "symlink", "device"; the constructor lowercases the supplied
    kind and replaces any other value (e.g. "other" or "regular file") with
    `None`. -/
theorem stat_kind_closed (kind : Option String) (size : Option Int)
    (atime mtime ctime birthtime : Option PyTime) :
    ((Stat.init kind size atime mtime ctime birthtime).kind = none
        ∨ (Stat.init kind size atime mtime ctime birthtime).kind = some "directory"
        ∨ (Stat.init kind size atime mtime ctime birthtime).kind = some "file"
        ∨ (Stat.init kind size atime mtime ctime birthtime).kind = some "symlink"
        ∨ (Stat.init kind size atime mtime ctime birthtime).kind = some "device")
      ∧ (∀ s t, (Stat.init (some s) size atime mtime ctime birthtime).kind = some t →
          t = pyLower s)
      ∧ (Stat.init (some "other") size atime mtime ctime birthtime).kind = none
      ∧ (Stat.init (some "regular file") size atime mtime ctime birthtime).kind = none := by
  refine ⟨?_, ?_, rfl, rfl⟩
  · cases kind with
    | none => exact Or.inl rfl
    | some s =>
      simp only [Stat.init, Stat.normKind]
      split
      · rename_i hmem
        rcases hmem with h | h | h | h <;> simp [h]
      · exact Or.inl rfl
  · intro s t h
    simp only [Stat.init, Stat.normKind] at h
    split at h
    · exact (Option.some.inj h).symm
    · cases h

/-- C10 witness: a mixed-case supplied kind is lowercased before the
    membership test, so `"DIRECTORY"` is stored as `"directory"`. -/
theorem stat_kind_closed_witness :
    (Stat.init (some "DIRECTORY") none none none none none).kind = some "directory"
      ∧ ("directory" = pyLower "DIRECTORY") := by
  have h := stat_kind_closed (some "DIRECTORY") none none none none none
  refine ⟨?_, by decide⟩
  rcases h.1 with hk | hk | hk | hk | hk
  all_goals first
    | exact hk
    | (exfalso; revert hk; decide)

/-!
## `URL` identity: `__hash__`, `__eq__`, `__lt__` (`src/lvfs/url.py:50-82`)

A `URL` instance belongs to some backend subclass (`LocalURL`, `GCSURL`,
`HDFSOverSSH`, ...), recorded here as a `backend` tag; none of
`__hash__`/`__eq__`/`__lt__` consult it. `__eq__` evaluates
`self.raw == value`. When `value` is another `URL`, Python's `str.__eq__`
returns `NotImplemented` and the reflected `URL.__eq__(value, self.raw)`
resolves the comparison to `value.raw == self.raw`, so URL-to-URL equality
is raw-string equality. `__lt__` evaluates `self.raw < value`, which for a
`URL` operand resolves through `str.__lt__ -> NotImplemented` and the
`functools.total_ordering`-derived reflected `__gt__` to
`self.raw < value.raw`. `total_ordering` derives the remaining operators
from `__lt__` and `__eq__`:
`a <= b` is `a < b or a == b`, `a > b` is `not (a < b) and a != b`,
`a >= b` is `not (a < b)`.
-/

/-- A `URL`: its backend subclass tag and its raw string (`url.py:38-48`). -/
structure URL where
  backend : String
  raw : String
  deriving DecidableEq, Repr

/-- `URL.__hash__` (`url.py:50-60`): the hash of the raw string. -/
def URL.hashU (u : URL) : UInt64 := hash u.raw

/-- `URL.__eq__` between two URLs (`url.py:62-71`), after Python's
    reflected-operand resolution: raw-string equality. -/
def URL.eqU (a b : URL) : Bool := a.raw == b.raw

/-- `URL.__eq__` between a URL and a plain string (`url.py:62-71`):
    `self.raw == value` directly. -/
def URL.eqStr (a : URL) (s : String) : Bool := a.raw == s

/-- `URL.__lt__` (`url.py:73-82`), after reflected-operand resolution:
    lexicographic comparison of the raw strings. -/
def URL.ltU (a b : URL) : Bool := decide (a.raw < b.raw)

/-- `__le__` as derived by `functools.total_ordering`: `a < b or a == b`. -/
def URL.leU (a b : URL) : Bool := URL.ltU a b || URL.eqU a b

/-- `__gt__` as derived by `functools.total_ordering`:
    `not (a < b) and a != b`. -/
def URL.gtU (a b : URL) : Bool := !URL.ltU a b && !URL.eqU a b

/-- `__ge__` as derived by `functools.total_ordering`: `not (a < b)`. -/
def URL.geU (a b : URL) : Bool := !URL.ltU a b

/-- C6: for all URLs `a` and `b`, whatever their backend subclasses:
    `a == b` iff the raw strings are equal; equal URLs hash equally; and
    `<`, `<=`, `>`, `>=` agree with lexicographic order of the raw strings
    (Lean's `String` order is lexicographic on the character lists, as the
    last conjunct records). -/
theorem url_identity_by_raw_string (a b : URL) :
    (URL.eqU a b = true ↔ a.raw = b.raw)
      ∧ (URL.eqU a b = true → URL.hashU a = URL.hashU b)
      ∧ (URL.ltU a b = true ↔ a.raw < b.raw)
      ∧ (URL.leU a b = true ↔ a.raw ≤ b.raw)
      ∧ (URL.gtU a b = true ↔ b.raw < a.raw)
      ∧ (URL.geU a b = true ↔ b.raw ≤ a.raw)
      ∧ (a.raw < b.raw ↔ a.raw.data < b.raw.data) := by
  refine ⟨by simp [URL.eqU], ?_, by simp [URL.ltU], ?_, ?_, ?_, ?_⟩
  · intro h
    have : a.raw = b.raw := by simpa [URL.eqU] using h
    simp [URL.hashU, this]
  · rw [URL.leU]
    simp only [Bool.or_eq_true, URL.ltU, URL.eqU, decide_eq_true_eq, beq_iff_eq]
    exact (le_iff_lt_or_eq (a := a.raw) (b := b.raw)).symm
  · rw [URL.gtU]
    simp only [Bool.and_eq_true, Bool.not_eq_true', URL.ltU, URL.eqU,
      decide_eq_false_iff_not, beq_eq_false_iff_ne, ne_eq]
    constructor
    · rintro ⟨hnlt, hne⟩
      exact lt_of_le_of_ne (not_lt.mp hnlt) (fun h => hne h.symm)
    · intro h
      exact ⟨not_lt.mpr h.le, fun he => absurd (he ▸ h) (lt_irrefl _)⟩
  · rw [URL.geU]
    simp only [Bool.not_eq_true', URL.ltU, decide_eq_false_iff_not]
    exact not_lt
  · exact String.lt_iff_toList_lt

/-- C6 witness: two URLs with the same raw string but different backend
    subclasses are equal, hash equally, and are mutually `<=` and `>=`. -/
theorem url_identity_by_raw_string_witness :
    URL.eqU ⟨"LocalURL", "/a/b"⟩ ⟨"GCSURL", "/a/b"⟩ = true
      ∧ URL.hashU ⟨"LocalURL", "/a/b"⟩ = URL.hashU ⟨"GCSURL", "/a/b"⟩
      ∧ URL.leU ⟨"LocalURL", "/a/b"⟩ ⟨"GCSURL", "/a/b"⟩ = true
      ∧ URL.geU ⟨"LocalURL", "/a/b"⟩ ⟨"GCSURL", "/a/b"⟩ = true := by
  have h := url_identity_by_raw_string ⟨"LocalURL", "/a/b"⟩ ⟨"GCSURL", "/a/b"⟩
  have he : URL.eqU ⟨"LocalURL", "/a/b"⟩ ⟨"GCSURL", "/a/b"⟩ = true := h.1.mpr rfl
  exact ⟨he, h.2.1 he, h.2.2.2.1.mpr le_rfl, h.2.2.2.2.2.1.mpr le_rfl⟩

/-!
## URLs and strings as interchangeable dict keys (C9)

Python dict/set membership finds a stored key `k` for a probe `q` when
`hash(k) == hash(q)` and `k == q`. With `URL.__hash__ = hash(raw)` and the
`__eq__` resolution above, a URL key and its raw string are
interchangeable. `PyKey` models a key that is either a plain string or a
URL, hashed and compared as CPython would.
-/

/-- A dict/set key: a plain string or a URL of some backend. -/
inductive PyKey where
  | strK (s : String)
  | urlK (backend : String) (raw : String)
  deriving DecidableEq, Repr

/-- The raw string a key compares by. -/
def PyKey.rawOf : PyKey → String
  | .strK s => s
  | .urlK _ r => r

/-- Python `==` between keys, after reflected-operand resolution:
    `str == str` directly; `str == URL` reflects into `URL.__eq__`
    (`url.py:62-71`), which compares against the URL's raw string;
    `URL == value` compares `self.raw == value`, resolved to the other
    key's raw string. -/
def pyKeyEq : PyKey → PyKey → Bool
  | .strK s, .strK t => s == t
  | .strK s, .urlK _ r => r == s
  | .urlK _ r, .strK s => r == s
  | .urlK _ r, .urlK _ t => r == t

/-- Python `hash` of a key: a string hashes as itself, a URL as its raw
    string (`url.py:50-60`). -/
def pyKeyHash : PyKey → UInt64
  | .strK s => hash s
  | .urlK _ r => hash r

/-- A model dict lookup: return the value of the first entry whose stored
    key has the probe's hash and compares equal to the probe. -/
def dictFind {α : Type} (m : List (PyKey × α)) (q : PyKey) : Option α :=
  (m.find? (fun kv => pyKeyHash kv.1 == pyKeyHash q && pyKeyEq kv.1 q)).map (·.2)

theorem find?_of_same_pred {α : Type} (p q : α → Bool) (l : List α)
    (h : ∀ a, p a = q a) : l.find? p = l.find? q := by
  induction l with
  | nil => rfl
  | cons a t ih => rw [List.find?_cons, List.find?_cons, h a, ih]

theorem pyKeyEq_eq_rawOf (a b : PyKey) : pyKeyEq a b = (a.rawOf == b.rawOf) := by
  cases a <;> cases b <;> simp [pyKeyEq, PyKey.rawOf, BEq.comm]

theorem pyKeyHash_eq_rawOf (a : PyKey) : pyKeyHash a = hash a.rawOf := by
  cases a <;> rfl

/-- C9: a URL equals a plain string exactly when its raw string does; a URL
    hashes as its raw string; and for every model dict, looking up a URL key
    and looking up its raw string give the same result (so either form of
    key finds an entry stored under the other). -/
theorem url_string_keys_interchangeable {α : Type} (backend raw s : String)
    (m : List (PyKey × α)) :
    (pyKeyEq (.urlK backend raw) (.strK s) = true ↔ raw = s)
      ∧ pyKeyHash (.urlK backend raw) = hash raw
      ∧ dictFind m (.urlK backend raw) = dictFind m (.strK raw) := by
  refine ⟨by simp [pyKeyEq], rfl, ?_⟩
  unfold dictFind
  rw [find?_of_same_pred _ _ m (fun kv => ?_)]
  rw [pyKeyEq_eq_rawOf, pyKeyEq_eq_rawOf, pyKeyHash_eq_rawOf, pyKeyHash_eq_rawOf,
    pyKeyHash_eq_rawOf]
  rfl

/-- C9 witness: an entry stored under the string key `"/a/b"` is found by a
    probe with the URL key `("LocalURL", "/a/b")`, and conversely. -/
theorem url_string_keys_interchangeable_witness :
    dictFind [(.strK "/a/b", (5 : Nat))] (.urlK "LocalURL" "/a/b") = some 5
      ∧ dictFind [(.urlK "GCSURL" "/a/b", (7 : Nat))] (.strK "/a/b") = some 7 := by
  have h1 := url_string_keys_interchangeable (α := Nat) "LocalURL" "/a/b" "/a/b"
    [(.strK "/a/b", 5)]
  have h2 := url_string_keys_interchangeable (α := Nat) "GCSURL" "/a/b" "/a/b"
    [(.urlK "GCSURL" "/a/b", 7)]
  have hs : dictFind [(PyKey.strK "/a/b", (5 : Nat))] (.strK "/a/b") = some 5 := by
    simp [dictFind, pyKeyEq]
  have hu : dictFind [(PyKey.urlK "GCSURL" "/a/b", (7 : Nat))]
      (.urlK "GCSURL" "/a/b") = some 7 := by
    simp [dictFind, pyKeyEq]
  exact ⟨h1.2.2.trans hs, (h2.2.2).symm.trans hu⟩

/-!
## Generic algorithms: `deep_mtime` and `walk` (`src/lvfs/url.py:751-799`)

Both are default methods of the abstract `URL` class, written against the
backend primitives `ls`, `stat`, `isdir`. The embedding parametrises them
by the primitives' results.
-/

/-- `u.stat().mtime` at `url.py:759`: `stat` is an `async` method
    (`url.py:241-244` and every backend), so `u.stat()` without `await`
    yields a coroutine object, and the `.mtime` attribute access on it
    raises `AttributeError` — for every `u`. -/
def coroutineMtime (u : URL) : Except PyErr PyTime := .error .attributeError

/-- `URL.deep_mtime` (`url.py:751-764`), parametrised by the outcome of
    `await self.ls(recursive=...)`. The `try` body builds the list of
    `u.stat().mtime` values and takes `(min(mtimes), max(mtimes))` — `min`
    and `max` of an empty list raise `ValueError` — and `except Exception`
    coerces any failure to `(0, 0)`. -/
def deep_mtime (lsResult : Except PyErr (List URL)) : Int × Int :=
  match (do
    let urls ← lsResult
    let mtimes ← urls.mapM coroutineMtime
    match mtimes.min?, mtimes.max? with
    | some lo, some hi => pure (lo, hi)
    | _, _ => Except.error PyErr.valueError : Except PyErr (Int × Int)) with
  | .ok p => p
  | .error _ => (0, 0)

/-- C4: `deep_mtime` returns `(0, 0)` for every listing outcome — including
    a successful listing of entries whose stats have modification times.
    The unawaited `u.stat()` coroutine at `url.py:759` makes the attribute
    access raise `AttributeError` inside the `try`, so the success half of
    the claim never happens; the failure half (errors coerced to `(0, 0)`,
    never propagated) holds. -/
theorem deep_mtime_always_zero (lsResult : Except PyErr (List URL)) :
    deep_mtime lsResult = (0, 0) := by
  match lsResult with
  | .error e => rfl
  | .ok [] => rfl
  | .ok (u :: rest) => rfl

/-- `os.path.dirname` of the raw string, backing the `dirname` property
    (`url.py:127-130`; the property applies it to the parsed path — the
    distinction is immaterial here because `walk` never successfully
    consumes the value, see `propertyCalled`). -/
def pathDirname (raw : String) : String :=
  match (raw.splitOn "/").dropLast with
  | [] => ""
  | segs => String.intercalate "/" segs

/-- The `dirname` property (`url.py:127-130`). -/
def URL.dirname (u : URL) : String := pathDirname u.raw

/-- The call `kid.dirname()` at `url.py:789`: `dirname` is a `@property`,
    so the attribute access already yields the `str`, and calling a `str`
    raises `TypeError: 'str' object is not callable`. -/
def propertyCalled (s : String) : Except PyErr String := .error .typeError

/-- One `(parent, (subdirectories, files))` group of `walk`. -/
abbrev WalkGroup := String × List URL × List URL

/-- `directories.get(parent, ([], []))` followed by appending `kid` to the
    dirs or files component (`url.py:790-794`), preserving dict insertion
    order. -/
def bucketAdd (m : List WalkGroup) (parent : String) (kid : URL) (isd : Bool) :
    List WalkGroup :=
  match m with
  | [] => [(parent, if isd then ([kid], []) else ([], [kid]))]
  | (p, df) :: rest =>
    if p = parent then
      (p, if isd then (df.1 ++ [kid], df.2) else (df.1, df.2 ++ [kid])) :: rest
    else (p, df) :: bucketAdd rest parent kid isd

/-- Lookup of a bucket by parent path. -/
def bucketGet (m : List WalkGroup) (p : String) : Option (List URL × List URL) :=
  (m.find? (·.1 == p)).map (·.2)

/-- `URL.walk` (`url.py:766-799`), parametrised by the recursive listing
    `kids` (`await self.ls(recursive=True)`) and the `isdir` oracle.
    Buckets the kids by `kid.dirname()` — a call that raises `TypeError` —
    then yields the groups sorted by parent path, reversed when `topdown`
    is false (`sorted(keys, reverse=not topdown)`). -/
def walk (isdir : URL → Bool) (kids : List URL) (topdown : Bool) :
    Except PyErr (List WalkGroup) := do
  let directories ← kids.foldlM (fun m kid => do
    let parent ← propertyCalled (URL.dirname kid)
    pure (bucketAdd m parent kid (isdir kid))) []
  let sortedKeys := (directories.map (·.1)).mergeSort (fun a b => decide (a ≤ b))
  let orderedKeys := if topdown then sortedKeys else sortedKeys.reverse
  pure (orderedKeys.filterMap (fun p => (bucketGet directories p).map (fun df => (p, df))))

/-- C3: for every directory whose recursive listing is nonempty, the
    generic `walk` raises `TypeError` on the first kid instead of yielding
    any `(parent, subdirectories, files)` group: `url.py:789` invokes the
    `dirname` property as a method (`kid.dirname()`), calling its `str`
    value. The bucketing-and-sorting of the claim is unreachable. -/
theorem walk_raises_type_error (isdir : URL → Bool) (kids : List URL)
    (topdown : Bool) (h : kids ≠ []) :
    walk isdir kids topdown = .error .typeError := by
  match kids with
  | [] => exact absurd rfl h
  | k :: rest => rfl

/-- C3 witness: a directory whose listing contains a single file makes
    `walk` raise `TypeError`. -/
theorem walk_raises_type_error_witness :
    ([⟨"LocalURL", "/a/b/x"⟩] : List URL) ≠ []
      ∧ walk (fun _ => false) [⟨"LocalURL", "/a/b/x"⟩] true = .error .typeError :=
  ⟨by simp, walk_raises_type_error (fun _ => false) [⟨"LocalURL", "/a/b/x"⟩] true (by simp)⟩

/-!
## The remote-execution loop of `HDFSCLIOverSSH._cli`
   (`src/lvfs/hdfsclioverssh.py:66-110`)

The loop multiplexes one paramiko channel: it feeds `content` to stdin
while draining stdout (`recv`) and stderr (`recv_stderr`), both
non-blocking. A `recv` returns a chunk of bytes — the empty chunk `b""`
meaning end-of-stream — or raises `socket.timeout`, meaning only "no data
right now". The loop runs until `out_buf[-1:] == [b""] and
err_buf[-1:] == [b""]`, i.e. until both streams have returned an explicit
empty read, and only then calls `channel.recv_exit_status()`. A turn in
which the `idle` flag survives (no send and no successful recv) while
`exit_status_ready()` is false executes `time.sleep(0.05)`.

The embedding drives one loop iteration by a `Turn` describing what the
channel does on that iteration, and runs the loop over a finite list of
turns.
-/

/-- A byte string. -/
abbrev Bytes := List Nat

/-- What one non-blocking `recv` call does: return a chunk (possibly the
    empty end-of-stream chunk) or raise `socket.timeout`. -/
inductive Recv where
  | chunk (data : Bytes)
  | timeout
  deriving DecidableEq, Repr

/-- The channel's behaviour on one loop iteration: whether `send_ready()`
    is true (and how many bytes `send` then accepts), what `recv` and
    `recv_stderr` do, and whether `exit_status_ready()`. -/
structure Turn where
  sendReady : Bool
  sendCount : Nat
  recvOut : Recv
  recvErr : Recv
  exitReady : Bool
  deriving DecidableEq, Repr

/-- The loop state: the stdin cursor `in_cursor` and the received chunk
    buffers `out_buf` and `err_buf` (`hdfsclioverssh.py:81-83`). -/
structure LoopSt where
  inCursor : Nat
  outBuf : List Bytes
  errBuf : List Bytes
  deriving DecidableEq, Repr

/-- `buf[-1:] == [b""]`: the stream has returned an explicit empty read. -/
def atEOF (buf : List Bytes) : Bool := buf.getLast? == some []

/-- One iteration of the `while` body (`hdfsclioverssh.py:85-106`).
    Returns the new state and whether the iteration slept
    (`if idle and not channel.exit_status_ready(): time.sleep(0.05)`).
    A `socket.timeout` on a recv is caught with `pass`: it appends nothing
    and does not clear `idle`. -/
def Recv.isChunk : Recv → Bool
  | .chunk _ => true
  | .timeout => false

def stepTurn (content : Bytes) (t : Turn) (s : LoopSt) : LoopSt × Bool :=
  let idle0 := true
  let sendFires := content ≠ [] ∧ s.inCursor < content.length ∧ t.sendReady = true
  let inCursor1 := if sendFires then s.inCursor + t.sendCount else s.inCursor
  let idle1 := if sendFires then false else idle0
  let outRead := !atEOF s.outBuf && t.recvOut.isChunk
  let outBuf1 :=
    if atEOF s.outBuf = false then
      match t.recvOut with
      | .chunk d => s.outBuf ++ [d]
      | .timeout => s.outBuf
    else s.outBuf
  let idle2 := if outRead then false else idle1
  let errRead := !atEOF s.errBuf && t.recvErr.isChunk
  let errBuf1 :=
    if atEOF s.errBuf = false then
      match t.recvErr with
      | .chunk d => s.errBuf ++ [d]
      | .timeout => s.errBuf
    else s.errBuf
  let idle3 := if errRead then false else idle2
  let slept := idle3 = true ∧ t.exitReady = false
  (⟨inCursor1, outBuf1, errBuf1⟩, if slept then true else false)

/-- The `while not (out_buf[-1:] == [b""] and err_buf[-1:] == [b""])` loop
    (`hdfsclioverssh.py:84-106`), driven by a finite list of turns: `some`
    of the state at exit — the point where `recv_exit_status()` is called
    (`hdfsclioverssh.py:107`) — or `none` if the turns ran out first. -/
def runLoop (content : Bytes) (turns : List Turn) (s : LoopSt) : Option LoopSt :=
  if atEOF s.outBuf && atEOF s.errBuf then some s
  else
    match turns with
    | [] => none
    | t :: rest => runLoop content rest (stepTurn content t s).1

/-- C5: (1) whenever the loop reaches the point where the remote exit
    status is collected, both the primary and the diagnostic stream have
    recorded an explicit empty read; (2) and (3) a read timeout leaves the
    corresponding buffer — and hence its end-of-stream state — unchanged,
    so a timeout is never treated as end-of-stream; (4) a turn in which
    neither the send nor either read makes progress while the remote has
    not signaled completion performs the bounded `time.sleep(0.05)`. -/
theorem cli_loop_eof_before_exit_status :
    (∀ (content : Bytes) (turns : List Turn) (s s' : LoopSt),
        runLoop content turns s = some s'
          → atEOF s'.outBuf = true ∧ atEOF s'.errBuf = true)
      ∧ (∀ (content : Bytes) (t : Turn) (s : LoopSt), t.recvOut = .timeout
          → (stepTurn content t s).1.outBuf = s.outBuf)
      ∧ (∀ (content : Bytes) (t : Turn) (s : LoopSt), t.recvErr = .timeout
          → (stepTurn content t s).1.errBuf = s.errBuf)
      ∧ (∀ (content : Bytes) (t : Turn) (s : LoopSt),
          ¬ (content ≠ [] ∧ s.inCursor < content.length ∧ t.sendReady = true)
          → (atEOF s.outBuf = true ∨ t.recvOut = .timeout)
          → (atEOF s.errBuf = true ∨ t.recvErr = .timeout)
          → t.exitReady = false
          → (stepTurn content t s).2 = true) := by
  refine ⟨?_, ?_, ?_, ?_⟩
  · intro content turns s s' h
    induction turns generalizing s with
    | nil =>
      rw [runLoop] at h
      split at h
      · rename_i hc
        cases h
        exact ⟨(Bool.and_eq_true _ _ ▸ hc).1, (Bool.and_eq_true _ _ ▸ hc).2⟩
      · cases h
    | cons t rest ih =>
      rw [runLoop] at h
      split at h
      · rename_i hc
        cases h
        exact ⟨(Bool.and_eq_true _ _ ▸ hc).1, (Bool.and_eq_true _ _ ▸ hc).2⟩
      · exact ih _ h
  · intro content t s h
    simp [stepTurn, h]
  · intro content t s h
    simp [stepTurn, h]
  · intro content t s hsend hout herr hexit
    have hor : (!atEOF s.outBuf && t.recvOut.isChunk) = false := by
      rcases hout with h | h
      · simp [h]
      · simp [h, Recv.isChunk]
    have her : (!atEOF s.errBuf && t.recvErr.isChunk) = false := by
      rcases herr with h | h
      · simp [h]
      · simp [h, Recv.isChunk]
    simp [stepTurn, hsend, hor, her, hexit]

/-- C5 witness, exercising each conjunct at concrete inputs: a run whose
    single turn delivers the explicit empty read on both streams ends with
    both buffers at end-of-stream; a timeout turn leaves both buffers of
    the state `⟨0, [[1]], []⟩` untouched; and an all-timeout turn with the
    exit status not ready sleeps. -/
theorem cli_loop_eof_before_exit_status_witness :
    (atEOF (LoopSt.outBuf ⟨0, [[]], [[]]⟩) = true
        ∧ atEOF (LoopSt.errBuf ⟨0, [[]], [[]]⟩) = true)
      ∧ (stepTurn [] ⟨false, 0, .timeout, .timeout, false⟩ ⟨0, [[1]], []⟩).1.outBuf = [[1]]
      ∧ (stepTurn [] ⟨false, 0, .timeout, .timeout, false⟩ ⟨0, [[1]], []⟩).1.errBuf = []
      ∧ (stepTurn [] ⟨false, 0, .timeout, .timeout, false⟩ ⟨0, [[1]], []⟩).2 = true := by
  have h := cli_loop_eof_before_exit_status
  refine ⟨?_, ?_, ?_, ?_⟩
  · exact h.1 [] [⟨true, 0, .chunk [], .chunk [], false⟩] ⟨0, [], []⟩ ⟨0, [[]], [[]]⟩ rfl
  · exact h.2.1 [] ⟨false, 0, .timeout, .timeout, false⟩ ⟨0, [[1]], []⟩ rfl
  · exact h.2.2.1 [] ⟨false, 0, .timeout, .timeout, false⟩ ⟨0, [[1]], []⟩ rfl
  · exact h.2.2.2 [] ⟨false, 0, .timeout, .timeout, false⟩ ⟨0, [[1]], []⟩
      (by simp) (Or.inr rfl) (Or.inr rfl) rfl

/-!
## Recursive copy: `URL.cp` (`src/lvfs/url.py:801-819`)

```
destination = URL.to(destination)
if recursive and await self.isdir():
    await destination.mkdir()
    for name in await self.ls():
        await name.cp(destination.join(name.basename), recursive=True)
else:
    await destination.write_binary(await self.read_binary())
```

The source is a file-system subtree (`isdir`, `ls`, `read_binary` read it);
the destination is a store of writes keyed by path, where
`destination.join(name.basename)` appends the child's name as one path
segment (`url.py:184-202`, and `basename` of a child returned by `ls` is
its final segment).
-/

mutual
/-- A source subtree: a file with its byte content, or a directory with its
    named children in `ls` order. -/
inductive FSTree where
  | file (content : Bytes)
  | dir (kids : FSKids)
/-- The named children of a directory. -/
inductive FSKids where
  | nil
  | cons (name : String) (child : FSTree) (rest : FSKids)
end

/-- `await self.isdir()` on the source. -/
def FSTree.isdir : FSTree → Bool
  | .file _ => false
  | .dir _ => true

/-- `await self.read_binary()`: a file yields its content; reading a
    directory fails on every backend. -/
def FSTree.read_binary : FSTree → Option Bytes
  | .file c => some c
  | .dir _ => none

/-- A destination path: the segments appended below the original
    destination by `destination.join(name.basename)`. -/
abbrev DPath := List String

/-- What a destination path holds after a write. -/
inductive Entry where
  | dirE
  | fileE (content : Bytes)
  deriving DecidableEq, Repr

/-- The destination store: the writes performed, newest first. -/
abbrev Store := List (DPath × Entry)

/-- One `mkdir`/`write_binary` write. -/
def Store.write (st : Store) (p : DPath) (e : Entry) : Store := (p, e) :: st

/-- The entry visible at a path: the newest write there. -/
def Store.lookup (st : Store) (p : DPath) : Option Entry :=
  (st.find? (fun kv => kv.1 == p)).map (·.2)

mutual
/-- `URL.cp` (`url.py:801-819`) of a source subtree onto destination path
    `dst`: when `recursive and await self.isdir()`, `destination.mkdir()`
    then copy each child onto `destination.join(name.basename)` with
    `recursive=True`; otherwise write `read_binary()`'s result to `dst`.
    (`mkdir` also creates missing ancestors of the original destination;
    inside the recursion each nested `mkdir`'s parent was just created, so
    only the outermost call's ancestor creation is elided from the store
    model.) -/
def cp : FSTree → DPath → Bool → Store → Option Store
  | .dir kids, dst, true, st => cpKids kids dst (st.write dst .dirE)
  | .dir kids, dst, false, st =>
    ((FSTree.dir kids).read_binary).map (fun c => st.write dst (.fileE c))
  | .file c, dst, _, st =>
    ((FSTree.file c).read_binary).map (fun b => st.write dst (.fileE b))

/-- The loop `for name in await self.ls(): await
    name.cp(destination.join(name.basename), recursive=True)`. -/
def cpKids : FSKids → DPath → Store → Option Store
  | .nil, _, st => some st
  | .cons name child rest, dst, st =>
    match cp child (dst ++ [name]) true st with
    | none => none
    | some st1 => cpKids rest dst st1
end

mutual
/-- The entry of the source subtree at a relative path. -/
def findT : FSTree → DPath → Option Entry
  | .file c, [] => some (.fileE c)
  | .dir _, [] => some .dirE
  | .file _, _ :: _ => none
  | .dir kids, seg :: x => findKids kids seg x
/-- The entry below the child named `seg`, if any. -/
def findKids : FSKids → String → DPath → Option Entry
  | .nil, _, _ => none
  | .cons name child rest, seg, x =>
    if name = seg then findT child x else findKids rest seg x
end

/-- The child names of one directory level. -/
def FSKids.names : FSKids → List String
  | .nil => []
  | .cons name _ rest => name :: rest.names

mutual
/-- What a real listing guarantees: within each directory, child names are
    distinct. -/
def FSTree.wf : FSTree → Bool
  | .file _ => true
  | .dir kids => kids.wf
/-- `FSTree.wf` on a children list. -/
def FSKids.wf : FSKids → Bool
  | .nil => true
  | .cons name child rest =>
    !(rest.names.contains name) && child.wf && rest.wf
end

theorem Store.lookup_write (st : Store) (q : DPath) (e : Entry) (p : DPath) :
    (st.write q e).lookup p = if p = q then some e else st.lookup p := by
  by_cases h : p = q
  · simp [Store.write, Store.lookup, List.find?_cons, h]
  · have : (q == p) = false := by
      simp only [beq_eq_false_iff_ne, ne_eq]
      exact fun he => h he.symm
    simp [Store.write, Store.lookup, List.find?_cons, this, h]

theorem ne_append_cons (dst : DPath) (seg : String) (y : DPath) :
    dst ≠ dst ++ seg :: y := by
  intro h
  have := congrArg List.length h
  simp at this

theorem findKids_of_not_contains : ∀ (kids : FSKids) (name : String),
    kids.names.contains name = false → ∀ (x : DPath), findKids kids name x = none
  | .nil, _, _, _ => rfl
  | .cons n c rest, name, hn, x => by
    simp only [FSKids.names, List.contains_cons, Bool.or_eq_false_iff,
      beq_eq_false_iff_ne, ne_eq] at hn
    rw [findKids, if_neg (fun he => hn.1 he.symm)]
    exact findKids_of_not_contains rest name hn.2 x

mutual
/-- After `cp src dst recursive=True st` succeeds with a well-formed
    source: every source entry at relative path `x` is visible at
    `dst ++ x`, and every path that is not `dst ++ (a source path)` is
    untouched. -/
theorem cp_look : ∀ (src : FSTree) (dst : DPath) (st st' : Store),
    src.wf = true → cp src dst true st = some st'
      → ((∀ x e, findT src x = some e → st'.lookup (dst ++ x) = some e)
          ∧ (∀ p, (∀ x, p = dst ++ x → findT src x = none)
              → st'.lookup p = st.lookup p))
  | .file c, dst, st, st', _, h => by
    have hst : st' = st.write dst (.fileE c) := by
      rw [cp] at h
      simp [FSTree.read_binary] at h
      exact h.symm
    subst hst
    constructor
    · intro x e hx
      match x, hx with
      | [], hx =>
        rw [findT] at hx
        cases hx
        simp [Store.lookup_write]
    · intro p hp
      have hne : p ≠ dst := by
        intro he
        have := hp [] (by simp [he])
        rw [findT] at this
        cases this
      rw [Store.lookup_write, if_neg hne]
  | .dir kids, dst, st, st', hw, h => by
    rw [FSTree.wf] at hw
    rw [cp] at h
    have hk := cpKids_look kids dst (st.write dst .dirE) st' hw h
    constructor
    · intro x e hx
      match x, hx with
      | [], hx =>
        rw [findT] at hx
        cases hx
        have huntouched : ∀ seg y, dst = dst ++ seg :: y → findKids kids seg y = none := by
          intro seg y heq
          exact absurd heq (ne_append_cons dst seg y)
        rw [List.append_nil, hk.2 dst huntouched, Store.lookup_write, if_pos rfl]
      | seg :: y, hx =>
        rw [findT] at hx
        exact hk.1 seg y e hx
    · intro p hp
      have hne : p ≠ dst := by
        intro he
        have := hp [] (by simp [he])
        rw [findT] at this
        cases this
      have hkp : ∀ seg y, p = dst ++ seg :: y → findKids kids seg y = none := by
        intro seg y heq
        have := hp (seg :: y) heq
        rwa [findT] at this
      rw [hk.2 p hkp, Store.lookup_write, if_neg hne]

/-- The children loop of `cp_look`. -/
theorem cpKids_look : ∀ (kids : FSKids) (dst : DPath) (st st' : Store),
    kids.wf = true → cpKids kids dst st = some st'
      → ((∀ seg x e, findKids kids seg x = some e
            → st'.lookup (dst ++ seg :: x) = some e)
          ∧ (∀ p, (∀ seg x, p = dst ++ seg :: x → findKids kids seg x = none)
              → st'.lookup p = st.lookup p))
  | .nil, dst, st, st', _, h => by
    rw [cpKids] at h
    cases h
    constructor
    · intro seg x e hx
      rw [findKids] at hx
      cases hx
    · intro p _
      rfl
  | .cons name child rest, dst, st, st', hw, h => by
    rw [FSKids.wf] at hw
    simp only [Bool.and_eq_true, Bool.not_eq_true'] at hw
    obtain ⟨⟨hn, hcw⟩, hrw⟩ := hw
    rw [cpKids] at h
    match hc : cp child (dst ++ [name]) true st, h with
    | none, h => simp at h
    | some st1, h =>
      change cpKids rest dst st1 = some st' at h
      have hchild := cp_look child (dst ++ [name]) st st1 hcw hc
      have hrest := cpKids_look rest dst st1 st' hrw h
      constructor
      · intro seg x e hx
        rw [findKids] at hx
        by_cases hns : name = seg
        · subst hns
          rw [if_pos rfl] at hx
          have h1 : st1.lookup ((dst ++ [name]) ++ x) = some e := hchild.1 x e hx
          have huntouched : ∀ seg' y, dst ++ name :: x = dst ++ seg' :: y
              → findKids rest seg' y = none := by
            intro seg' y heq
            have hcons := List.append_cancel_left heq
            cases hcons
            exact findKids_of_not_contains rest name hn x
          rw [hrest.2 _ huntouched]
          rw [List.append_assoc] at h1
          exact h1
        · rw [if_neg hns] at hx
          exact hrest.1 seg x e hx
      · intro p hp
        have hchild_untouched : ∀ y, p = (dst ++ [name]) ++ y → findT child y = none := by
          intro y heq
          rw [List.append_assoc] at heq
          have := hp name y heq
          rw [findKids, if_pos rfl] at this
          exact this
        have hb1 := hchild.2 p hchild_untouched
        have hrest_untouched : ∀ seg x, p = dst ++ seg :: x
            → findKids rest seg x = none := by
          intro seg x heq
          by_cases hns : name = seg
          · subst hns
            exact findKids_of_not_contains rest name hn x
          · have := hp seg x heq
            rwa [findKids, if_neg hns] at this
        exact (hrest.2 p hrest_untouched).trans hb1

end

/-- C2: recursive copy does not create an extra subdirectory level.
    (i) When the source is not a directory, `cp` (with either `recursive`
    value) reads the whole content and writes it to `dst`.
    (ii) When the source is a directory with distinct child names and
    `recursive` is true — the branch that first creates `dst` as a
    directory and then copies each direct child onto
    `dst.join(child.basename)` — every source descendant at relative path
    `x` ends up at `dst ++ x`, and any path `dst ++ x` that is not a source
    descendant path (for example `dst ++ [basename src] ++ x`) is left
    exactly as it was in the prior store. -/
theorem cp_recursive_no_extra_level :
    (∀ (content : Bytes) (dst : DPath) (r : Bool) (st : Store),
        cp (.file content) dst r st = some (st.write dst (.fileE content)))
      ∧ (∀ (src : FSTree) (dst : DPath) (st st' : Store),
          src.wf = true → cp src dst true st = some st'
            → (∀ x e, findT src x = some e → st'.lookup (dst ++ x) = some e)
              ∧ (∀ x, findT src x = none
                  → st'.lookup (dst ++ x) = st.lookup (dst ++ x))) := by
  constructor
  · intro content dst r st
    cases r <;> rfl
  · intro src dst st st' hw h
    have hk := cp_look src dst st st' hw h
    refine ⟨hk.1, ?_⟩
    intro x hx
    refine hk.2 (dst ++ x) ?_
    intro y heq
    have hxy : x = y := List.append_cancel_left heq
    exact hxy ▸ hx

/-- C2 witness: the claim's scenario. Copying the directory `/a/b`, which
    contains the single file `x`, onto `/d/e` puts the file at
    `/d/e/x` — and `/d/e/b/x` (the extra-level path) stays absent. -/
theorem cp_recursive_no_extra_level_witness :
    cp (.dir (.cons "x" (.file [1]) .nil)) ["d", "e"] true []
        = some [(["d", "e", "x"], .fileE [1]), (["d", "e"], .dirE)]
      ∧ Store.lookup [(["d", "e", "x"], .fileE [1]), (["d", "e"], .dirE)]
          ["d", "e", "x"] = some (.fileE [1])
      ∧ Store.lookup [(["d", "e", "x"], .fileE [1]), (["d", "e"], .dirE)]
          ["d", "e", "b", "x"] = none := by
  have h := cp_recursive_no_extra_level
  have hcp : cp (.dir (.cons "x" (.file [1]) .nil)) ["d", "e"] true []
      = some [(["d", "e", "x"], .fileE [1]), (["d", "e"], .dirE)] := rfl
  have hwf : (FSTree.dir (.cons "x" (.file [1]) .nil)).wf = true := rfl
  have hk := h.2 (.dir (.cons "x" (.file [1]) .nil)) ["d", "e"] []
    [(["d", "e", "x"], .fileE [1]), (["d", "e"], .dirE)] hwf hcp
  refine ⟨hcp, hk.1 ["x"] (.fileE [1]) rfl, ?_⟩
  have hnone := hk.2 ["b", "x"] rfl
  exact hnone.trans rfl

end LVFS
